import Mathlib

/-!
Verification of the multisig governance engine and the forwarder-queue
contract of this repository.

The multisig contract implementation itself is not present in the source
tree (only its whitebox test is), so the governance engine below is
modelled from the specification, section by section: Role Registry (4.1),
Quorum Config (4.2), Action Store (4.3), Signature Ledger (4.4), and the
Action Dispatcher (4.5) with the Access Guard checks (4.6).

The forwarder-queue contract is embedded directly from
contracts/feature-tests/composability/forwarder-queue/src/forwarder_queue.rs.
-/

deriving instance DecidableEq for Except

namespace Multisig

/-- Identities are opaque address values compared by equality; we model
them as natural numbers. -/
abbrev Identity := Nat

/-- Modelled from the spec: Role, an enumerated variant over
None / Proposer / BoardMember (section 3). -/
inductive UserRole where
| none
| proposer
| boardMember
deriving DecidableEq

/-- Modelled from the spec: the Action tagged union (section 3). The
external-call payloads (amounts, endpoint names, code metadata,
arguments) are carried as opaque data. -/
inductive Action where
| addBoardMember (who : Identity)
| addProposer (who : Identity)
| removeUser (who : Identity)
| changeQuorum (newQuorum : Nat)
| sendTransferExecute (dest : Identity) (amount : Nat) (endpointName : Option (List Nat)) (arguments : List (List Nat))
| sendAsyncCall (dest : Identity) (amount : Nat) (endpointName : Option (List Nat)) (arguments : List (List Nat))
| scDeployFromSource (amount : Nat) (source : Identity) (codeMetadata : Nat) (arguments : List (List Nat))
| scUpgradeFromSource (target : Identity) (amount : Nat) (source : Identity) (codeMetadata : Nat) (arguments : List (List Nat))
deriving DecidableEq

/-- Modelled from the spec: a stored action record of the Action Store
(section 3): id, payload, proposer identity, and its signature set
(kept as a duplicate-free list). -/
structure ActionEntry where
  id : Nat
  action : Action
  proposer : Identity
  signers : List Identity
deriving DecidableEq

/-- Modelled from the spec: the contract-wide state (section 2): role
registry (association list, latest binding per key), incrementally
maintained board-member count (4.1), quorum config (4.2), action store
(4.3) and the monotone action-id counter. -/
structure MsState where
  roles : List (Identity × UserRole)
  boardCount : Nat
  quorum : Nat
  actions : List ActionEntry
  lastActionId : Nat
deriving DecidableEq

/-- Modelled from the spec: the error taxonomy of section 7, plus the
failure of a discard on a quorum-satisfied action (section 4.3). -/
inductive MsError where
| unauthorized
| notFound
| quorumNotMet
| invalidQuorum
| quorumWouldBeUnreachable
| nothingToRemove
| cannotDiscard
deriving DecidableEq

/-- Modelled from the spec: role lookup, defaulting to None for unknown
identities (4.1). -/
def role_of (s : MsState) (who : Identity) : UserRole :=
  match s.roles.find? (fun p => p.1 == who) with
  | some p => p.2
  | Option.none => UserRole.none

/-- Replace the binding for a key in the role association list, or append
a new binding. -/
def updateRole : List (Identity × UserRole) → Identity → UserRole → List (Identity × UserRole)
| [], who, r => [(who, r)]
| p :: rest, who, r => if p.1 = who then (who, r) :: rest else p :: updateRole rest who r

/-- Modelled from the spec: unconditional role overwrite with the
board-member count maintained incrementally (incremented on promotion
to BoardMember, decremented on demotion away from it, section 4.1). -/
def set_role (s : MsState) (who : Identity) (r : UserRole) : MsState :=
  let old := role_of s who
  { s with
    roles := updateRole s.roles who r
    boardCount :=
      if old = UserRole.boardMember ∧ r ≠ UserRole.boardMember then s.boardCount - 1
      else if old ≠ UserRole.boardMember ∧ r = UserRole.boardMember then s.boardCount + 1
      else s.boardCount }

/-- Modelled from the spec: the aggregate board-member count (4.1). -/
def board_member_count (s : MsState) : Nat := s.boardCount

/-- Modelled from the spec: the list of identities currently holding the
BoardMember role. -/
def get_all_board_members (s : MsState) : List Identity :=
  (s.roles.filter (fun p => decide (p.2 = UserRole.boardMember))).map Prod.fst

/-- Modelled from the spec: the list of identities currently holding the
Proposer role. -/
def get_all_proposers (s : MsState) : List Identity :=
  (s.roles.filter (fun p => decide (p.2 = UserRole.proposer))).map Prod.fst

/-- Register every identity of a list with a role, in order. -/
def registerRoles (l : List Identity) (r : UserRole) (s : MsState) : MsState :=
  l.foldl (fun acc b => set_role acc b r) s

/-- Modelled from the spec: deployment-time initialization (4.1):
register the board members, then the deploy-time proposers, then
validate the quorum against the resulting board-member count (4.2):
it fails with InvalidQuorum if the quorum is 0 or above the
board-member count. -/
def initState (q : Nat) (board : List Identity) (proposers : List Identity) : Except MsError MsState :=
  let s1 := registerRoles board UserRole.boardMember ⟨[], 0, 0, [], 0⟩
  let s2 := registerRoles proposers UserRole.proposer s1
  if q = 0 ∨ s2.boardCount < q then Except.error MsError.invalidQuorum
  else Except.ok { s2 with quorum := q }

/-- Modelled from the spec: Action Store lookup by id (4.3). -/
def get_action (s : MsState) (actionId : Nat) : Option ActionEntry :=
  s.actions.find? (fun e => e.id == actionId)

/-- Modelled from the spec: propose (4.3): requires the caller to be a
Proposer or BoardMember, allocates the next id (strictly increasing,
starting at 1), stores the action and returns the id. -/
def propose (s : MsState) (caller : Identity) (a : Action) : Except MsError (MsState × Nat) :=
  if role_of s caller = UserRole.proposer ∨ role_of s caller = UserRole.boardMember then
    Except.ok ({ s with
        lastActionId := s.lastActionId + 1
        actions := s.actions ++ [⟨s.lastActionId + 1, a, caller, []⟩] },
      s.lastActionId + 1)
  else Except.error MsError.unauthorized

/-- Apply a function to every stored action record with a given id. -/
def update_action (actions : List ActionEntry) (actionId : Nat) (f : ActionEntry → ActionEntry) : List ActionEntry :=
  actions.map (fun e => if e.id = actionId then f e else e)

/-- Modelled from the spec: sign (4.4): requires the signer to be a
BoardMember and the action to exist; inserting an already-present
signer is a no-op, not an error. -/
def sign (s : MsState) (caller : Identity) (actionId : Nat) : Except MsError MsState :=
  if role_of s caller = UserRole.boardMember then
    match get_action s actionId with
    | Option.none => Except.error MsError.notFound
    | some e =>
      if caller ∈ e.signers then Except.ok s
      else Except.ok { s with
        actions := update_action s.actions actionId
          (fun e2 => { e2 with signers := e2.signers ++ [caller] }) }
  else Except.error MsError.unauthorized

/-- Modelled from the spec: unsign (4.4): removes the signer from the
signature set if present; a no-op otherwise. -/
def unsign (s : MsState) (caller : Identity) (actionId : Nat) : Except MsError MsState :=
  if role_of s caller = UserRole.boardMember then
    match get_action s actionId with
    | Option.none => Except.error MsError.notFound
    | some _ =>
      Except.ok { s with
        actions := update_action s.actions actionId
          (fun e2 => { e2 with signers := e2.signers.filter (fun x => decide (x ≠ caller)) }) }
  else Except.error MsError.unauthorized

/-- Modelled from the spec: signature count (4.4): counts only the
recorded signers whose current role is BoardMember; stale signatures
of demoted members are excluded without being physically removed. -/
def signature_count (s : MsState) (actionId : Nat) : Nat :=
  match get_action s actionId with
  | Option.none => 0
  | some e => (e.signers.filter (fun x => decide (role_of s x = UserRole.boardMember))).length

/-- Modelled from the spec: the derived quorum-met predicate (4.4). -/
def quorum_reached (s : MsState) (actionId : Nat) : Bool :=
  decide (s.quorum ≤ signature_count s actionId)

/-- Modelled from the spec: removal of a stored action and its signature
set (4.3). -/
def remove_action (s : MsState) (actionId : Nat) : MsState :=
  { s with actions := s.actions.filter (fun e => decide (e.id ≠ actionId)) }

/-- Modelled from the spec: discard (4.3): permitted if the caller is a
BoardMember or the original proposer, and the action is not currently
quorum-satisfied. -/
def discard (s : MsState) (caller : Identity) (actionId : Nat) : Except MsError MsState :=
  match get_action s actionId with
  | Option.none => Except.error MsError.notFound
  | some e =>
    if role_of s caller = UserRole.boardMember ∨ caller = e.proposer then
      if quorum_reached s actionId then Except.error MsError.cannotDiscard
      else Except.ok (remove_action s actionId)
    else Except.error MsError.unauthorized

/-- Modelled from the spec: the governance effect of a dispatched action
(4.5): role changes with the quorum-reachability guard of 4.2 for any
demotion away from the board, quorum change through set_quorum, and
external delegations (transfer, async call, deploy, upgrade) that do
not change governance state. -/
def perform_action (s : MsState) (a : Action) : Except MsError MsState :=
  match a with
  | Action.addBoardMember who => Except.ok (set_role s who UserRole.boardMember)
  | Action.addProposer who =>
    if role_of s who = UserRole.boardMember ∧ s.boardCount - 1 < s.quorum then
      Except.error MsError.quorumWouldBeUnreachable
    else Except.ok (set_role s who UserRole.proposer)
  | Action.removeUser who =>
    if role_of s who = UserRole.none then Except.error MsError.nothingToRemove
    else if role_of s who = UserRole.boardMember ∧ s.boardCount - 1 < s.quorum then
      Except.error MsError.quorumWouldBeUnreachable
    else Except.ok (set_role s who UserRole.none)
  | Action.changeQuorum n =>
    if n = 0 ∨ s.boardCount < n then Except.error MsError.invalidQuorum
    else Except.ok { s with quorum := n }
  | _ => Except.ok s

/-- Modelled from the spec: perform (4.5, 4.6): the caller must be a
BoardMember, the action must exist and be quorum-satisfied; the
governance effect is applied and the entry is removed on success. -/
def perform (s : MsState) (caller : Identity) (actionId : Nat) : Except MsError MsState :=
  if role_of s caller = UserRole.boardMember then
    match get_action s actionId with
    | Option.none => Except.error MsError.notFound
    | some e =>
      if quorum_reached s actionId then
        match perform_action s e.action with
        | Except.ok s2 => Except.ok (remove_action s2 actionId)
        | Except.error err => Except.error err
      else Except.error MsError.quorumNotMet
  else Except.error MsError.unauthorized

/-- One successful public mutating operation. -/
inductive Step : MsState → MsState → Prop where
| ofPropose {s : MsState} (caller : Identity) (a : Action) {s2 : MsState} (actionId : Nat) :
    propose s caller a = Except.ok (s2, actionId) → Step s s2
| ofSign {s : MsState} (caller : Identity) (actionId : Nat) {s2 : MsState} :
    sign s caller actionId = Except.ok s2 → Step s s2
| ofUnsign {s : MsState} (caller : Identity) (actionId : Nat) {s2 : MsState} :
    unsign s caller actionId = Except.ok s2 → Step s s2
| ofDiscard {s : MsState} (caller : Identity) (actionId : Nat) {s2 : MsState} :
    discard s caller actionId = Except.ok s2 → Step s s2
| ofPerform {s : MsState} (caller : Identity) (actionId : Nat) {s2 : MsState} :
    perform s caller actionId = Except.ok s2 → Step s s2

/-- States produced by a successful initialization followed by any
sequence of successful mutating operations. -/
inductive Reachable : MsState → Prop where
| init (q : Nat) (board : List Identity) (proposers : List Identity) {s : MsState} :
    initState q board proposers = Except.ok s → Reachable s
| step {s s2 : MsState} : Reachable s → Step s s2 → Reachable s2

/-- The deployment state of the whitebox test: board member 1, quorum 1,
proposer 2. -/
def setupState : MsState :=
  ⟨[(1, UserRole.boardMember), (2, UserRole.proposer)], 1, 1, [], 0⟩

/-- State after proposer 2 proposes AddBoardMember 3 from the setup. -/
def c1AfterPropose : MsState :=
  { setupState with lastActionId := 1, actions := [⟨1, Action.addBoardMember 3, 2, []⟩] }

/-- State after board member 1 signs action 1. -/
def c1AfterSign : MsState :=
  { c1AfterPropose with actions := [⟨1, Action.addBoardMember 3, 2, [1]⟩] }

/-- State after board member 1 performs action 1. -/
def c1AfterPerform : MsState :=
  ⟨[(1, UserRole.boardMember), (2, UserRole.proposer), (3, UserRole.boardMember)], 2, 1, [], 1⟩

/-- State after proposer 2 proposes RemoveUser 2 from the setup. -/
def c8AfterPropose : MsState :=
  { setupState with lastActionId := 1, actions := [⟨1, Action.removeUser 2, 2, []⟩] }

/-- State after board member 1 signs the RemoveUser action. -/
def c8AfterSign : MsState :=
  { c8AfterPropose with actions := [⟨1, Action.removeUser 2, 2, [1]⟩] }

/-- State after board member 1 performs the RemoveUser action. -/
def c8AfterPerform : MsState :=
  ⟨[(1, UserRole.boardMember), (2, UserRole.none)], 1, 1, [], 1⟩

/-- Board of two members with quorum 2 and a fully signed ChangeQuorum 3
action. -/
def c4State : MsState :=
  ⟨[(1, UserRole.boardMember), (2, UserRole.boardMember)], 2, 2,
    [⟨1, Action.changeQuorum 3, 1, [1, 2]⟩], 1⟩

/-- Board of two members with quorum 1; action 1 is signed only by board
member 2, action 2 removes board member 2 and is signed by 1. -/
def c5State : MsState :=
  ⟨[(1, UserRole.boardMember), (2, UserRole.boardMember)], 2, 1,
    [⟨1, Action.addProposer 5, 2, [2]⟩, ⟨2, Action.removeUser 2, 2, [1]⟩], 2⟩

/-- The state after board member 1 performs the RemoveUser action of
c5State: board member 2 is demoted, its stale signature on action 1
stays stored. -/
def c5After : MsState :=
  ⟨[(1, UserRole.boardMember), (2, UserRole.none)], 1, 1,
    [⟨1, Action.addProposer 5, 2, [2]⟩], 2⟩

/-- State after a second proposal (AddProposer 4) made from c1AfterSign:
it receives action id 2. -/
def c6AfterSecondPropose : MsState :=
  { c1AfterSign with
    lastActionId := 2
    actions := c1AfterSign.actions ++ [⟨2, Action.addProposer 4, 2, []⟩] }

end Multisig

namespace ForwarderQueue

/-- The four queued-call kinds of forwarder_queue.rs. -/
inductive QueuedCallType where
| sync
| legacyAsync
| transferExecute
| promise
deriving DecidableEq

/-- The payment attached to a queued call: either an EGLD amount or a
list of ESDT payments (token, nonce, amount), as in
EgldOrMultiEsdtPayment. -/
inductive Payment where
| egld (value : Nat)
| multiEsdt (payments : List (Nat × Nat × Nat))
deriving DecidableEq

/-- A queued call record, as the QueuedCall struct of forwarder_queue.rs:
call type, destination, gas limit, endpoint name, arguments, payment. -/
structure QueuedCall where
  callType : QueuedCallType
  dest : Nat
  gasLimit : Nat
  endpointName : List Nat
  args : List (List Nat)
  payments : Payment
deriving DecidableEq

/-- The contract storage: the queued_calls linked list, modelled as a
list whose head is the front of the queue (push_back appends at the
back, pop_front removes the head). -/
structure FQState where
  queued_calls : List QueuedCall
deriving DecidableEq

/-- add_queued_call of forwarder_queue.rs: emits an event (no storage
effect) and pushes the new record at the back of queued_calls. -/
def add_queued_call (s : FQState) (callType : QueuedCallType) (dest : Nat) (gasLimit : Nat)
    (endpointName : List Nat) (args : List (List Nat)) (payments : Payment) : FQState :=
  { s with queued_calls := s.queued_calls ++ [⟨callType, dest, gasLimit, endpointName, args, payments⟩] }

/-- The loop of forward_queued_calls of forwarder_queue.rs: pop the front
entry, dispatch it, and continue; a LegacyAsync dispatch ends execution
(call_and_exit) with the rest of the queue left in storage. Returns the
final queue contents and the dispatched calls in dispatch order. -/
def forwardLoop : List QueuedCall → List QueuedCall × List QueuedCall
| [] => ([], [])
| c :: rest =>
  match c.callType with
  | QueuedCallType.legacyAsync => (rest, [c])
  | _ =>
    let p := forwardLoop rest
    (p.1, c :: p.2)

/-- forward_queued_calls of forwarder_queue.rs: run the dispatch loop on
the stored queue; returns the new state and the dispatched calls in
order. -/
def forward_queued_calls (s : FQState) : FQState × List QueuedCall :=
  let p := forwardLoop s.queued_calls
  (⟨p.1⟩, p.2)

/-- A concrete synchronous queued call. -/
def c10Call1 : QueuedCall :=
  ⟨QueuedCallType.sync, 1, 0, [7], [[8]], Payment.egld 3⟩

/-- A concrete transfer-execute queued call. -/
def c10Call2 : QueuedCall :=
  ⟨QueuedCallType.transferExecute, 2, 5, [9], [[4], [6]], Payment.multiEsdt [(1, 0, 2)]⟩

end ForwarderQueue

namespace Multisig

theorem set_role_quorum (s : MsState) (who : Identity) (r : UserRole) :
    (set_role s who r).quorum = s.quorum := rfl

theorem set_role_actions (s : MsState) (who : Identity) (r : UserRole) :
    (set_role s who r).actions = s.actions := rfl

theorem set_role_lastActionId (s : MsState) (who : Identity) (r : UserRole) :
    (set_role s who r).lastActionId = s.lastActionId := rfl

theorem set_role_roles (s : MsState) (who : Identity) (r : UserRole) :
    (set_role s who r).roles = updateRole s.roles who r := rfl

theorem set_role_boardCount (s : MsState) (who : Identity) (r : UserRole) :
    (set_role s who r).boardCount =
      if role_of s who = UserRole.boardMember ∧ r ≠ UserRole.boardMember then s.boardCount - 1
      else if role_of s who ≠ UserRole.boardMember ∧ r = UserRole.boardMember then s.boardCount + 1
      else s.boardCount := rfl

theorem remove_action_quorum (s : MsState) (actionId : Nat) :
    (remove_action s actionId).quorum = s.quorum := rfl

theorem remove_action_boardCount (s : MsState) (actionId : Nat) :
    (remove_action s actionId).boardCount = s.boardCount := rfl

theorem remove_action_lastActionId (s : MsState) (actionId : Nat) :
    (remove_action s actionId).lastActionId = s.lastActionId := rfl

theorem remove_action_roles (s : MsState) (actionId : Nat) :
    (remove_action s actionId).roles = s.roles := rfl

theorem registerRoles_cons (b : Identity) (rest : List Identity) (r : UserRole) (s : MsState) :
    registerRoles (b :: rest) r s = registerRoles rest r (set_role s b r) := rfl

theorem registerRoles_quorum (l : List Identity) (r : UserRole) (s : MsState) :
    (registerRoles l r s).quorum = s.quorum := by
  induction l generalizing s with
  | nil => rfl
  | cons b rest ih => rw [registerRoles_cons, ih, set_role_quorum]

theorem registerRoles_actions (l : List Identity) (r : UserRole) (s : MsState) :
    (registerRoles l r s).actions = s.actions := by
  induction l generalizing s with
  | nil => rfl
  | cons b rest ih => rw [registerRoles_cons, ih, set_role_actions]

theorem registerRoles_lastActionId (l : List Identity) (r : UserRole) (s : MsState) :
    (registerRoles l r s).lastActionId = s.lastActionId := by
  induction l generalizing s with
  | nil => rfl
  | cons b rest ih => rw [registerRoles_cons, ih, set_role_lastActionId]

theorem initState_ok (q : Nat) (board : List Identity) (proposers : List Identity) (s : MsState)
    (h : initState q board proposers = Except.ok s) :
    1 ≤ s.quorum ∧ s.quorum ≤ s.boardCount ∧ s.actions = [] ∧ s.lastActionId = 0 := by
  simp only [initState] at h
  split at h
  · exact absurd h (by simp)
  · rename_i hcond
    rw [not_or, not_lt] at hcond
    obtain ⟨h0, hle⟩ := hcond
    have hs := Except.ok.inj h
    subst hs
    refine ⟨Nat.one_le_iff_ne_zero.mpr h0, hle, ?_, ?_⟩
    · exact registerRoles_actions _ _ _ |>.trans (registerRoles_actions _ _ _)
    · exact registerRoles_lastActionId _ _ _ |>.trans (registerRoles_lastActionId _ _ _)

end Multisig

namespace Multisig

theorem propose_ok (s : MsState) (caller : Identity) (a : Action) (s2 : MsState) (actionId : Nat)
    (h : propose s caller a = Except.ok (s2, actionId)) :
    (role_of s caller = UserRole.proposer ∨ role_of s caller = UserRole.boardMember)
    ∧ actionId = s.lastActionId + 1
    ∧ s2 = { s with
        lastActionId := s.lastActionId + 1
        actions := s.actions ++ [⟨s.lastActionId + 1, a, caller, []⟩] } := by
  unfold propose at h
  split at h
  · rename_i hrole
    have hp := Except.ok.inj h
    exact ⟨hrole, (congrArg Prod.snd hp).symm, (congrArg Prod.fst hp).symm⟩
  · exact absurd h (by simp)

theorem sign_ok (s : MsState) (caller : Identity) (actionId : Nat) (s2 : MsState)
    (h : sign s caller actionId = Except.ok s2) :
    role_of s caller = UserRole.boardMember
    ∧ ∃ e, get_action s actionId = some e
      ∧ ((caller ∈ e.signers ∧ s2 = s)
        ∨ (caller ∉ e.signers ∧ s2 = { s with
            actions := update_action s.actions actionId
              (fun e2 => { e2 with signers := e2.signers ++ [caller] }) })) := by
  unfold sign at h
  split at h
  · rename_i hrole
    split at h
    · exact absurd h (by simp)
    · rename_i e hget
      split at h
      · rename_i hmem
        exact ⟨hrole, e, hget, Or.inl ⟨hmem, (Except.ok.inj h).symm⟩⟩
      · rename_i hmem
        exact ⟨hrole, e, hget, Or.inr ⟨hmem, (Except.ok.inj h).symm⟩⟩
  · exact absurd h (by simp)

theorem unsign_ok (s : MsState) (caller : Identity) (actionId : Nat) (s2 : MsState)
    (h : unsign s caller actionId = Except.ok s2) :
    role_of s caller = UserRole.boardMember
    ∧ ∃ e, get_action s actionId = some e
      ∧ s2 = { s with
          actions := update_action s.actions actionId
            (fun e2 => { e2 with signers := e2.signers.filter (fun x => decide (x ≠ caller)) }) } := by
  unfold unsign at h
  split at h
  · rename_i hrole
    split at h
    · exact absurd h (by simp)
    · rename_i e hget
      exact ⟨hrole, e, hget, (Except.ok.inj h).symm⟩
  · exact absurd h (by simp)

theorem discard_ok (s : MsState) (caller : Identity) (actionId : Nat) (s2 : MsState)
    (h : discard s caller actionId = Except.ok s2) :
    ∃ e, get_action s actionId = some e
      ∧ (role_of s caller = UserRole.boardMember ∨ caller = e.proposer)
      ∧ quorum_reached s actionId = false
      ∧ s2 = remove_action s actionId := by
  unfold discard at h
  split at h
  · exact absurd h (by simp)
  · rename_i e hget
    split at h
    · rename_i hperm
      split at h
      · exact absurd h (by simp)
      · rename_i hq
        exact ⟨e, hget, hperm, Bool.not_eq_true _ ▸ eq_false_of_ne_true hq, (Except.ok.inj h).symm⟩
    · exact absurd h (by simp)

theorem perform_ok (s : MsState) (caller : Identity) (actionId : Nat) (s2 : MsState)
    (h : perform s caller actionId = Except.ok s2) :
    role_of s caller = UserRole.boardMember
    ∧ ∃ e s3, get_action s actionId = some e
      ∧ quorum_reached s actionId = true
      ∧ perform_action s e.action = Except.ok s3
      ∧ s2 = remove_action s3 actionId := by
  unfold perform at h
  split at h
  · rename_i hrole
    split at h
    · exact absurd h (by simp)
    · rename_i e hget
      split at h
      · rename_i hq
        split at h
        · rename_i s3 hpa
          exact ⟨hrole, e, s3, hget, hq, hpa, (Except.ok.inj h).symm⟩
        · exact absurd h (by simp)
      · exact absurd h (by simp)
  · exact absurd h (by simp)

end Multisig


namespace Multisig

theorem perform_action_fields (s : MsState) (a : Action) (s2 : MsState)
    (h : perform_action s a = Except.ok s2) :
    s2.actions = s.actions ∧ s2.lastActionId = s.lastActionId := by
  unfold perform_action at h
  split at h
  · have := Except.ok.inj h
    subst this
    exact ⟨set_role_actions _ _ _, set_role_lastActionId _ _ _⟩
  · split at h
    · exact absurd h (by simp)
    · have := Except.ok.inj h
      subst this
      exact ⟨set_role_actions _ _ _, set_role_lastActionId _ _ _⟩
  · split at h
    · exact absurd h (by simp)
    · split at h
      · exact absurd h (by simp)
      · have := Except.ok.inj h
        subst this
        exact ⟨set_role_actions _ _ _, set_role_lastActionId _ _ _⟩
  · split at h
    · exact absurd h (by simp)
    · have := Except.ok.inj h
      subst this
      exact ⟨rfl, rfl⟩
  · have := Except.ok.inj h
    subst this
    exact ⟨rfl, rfl⟩

theorem perform_action_inv (s : MsState) (a : Action) (s2 : MsState)
    (hq1 : 1 ≤ s.quorum) (hq2 : s.quorum ≤ s.boardCount)
    (h : perform_action s a = Except.ok s2) :
    1 ≤ s2.quorum ∧ s2.quorum ≤ s2.boardCount := by
  unfold perform_action at h
  split at h
  · rename_i who
    have := Except.ok.inj h
    subst this
    rw [set_role_quorum, set_role_boardCount]
    refine ⟨hq1, ?_⟩
    by_cases hw : role_of s who = UserRole.boardMember
    · simp only [hw, ne_eq, not_true_eq_false, and_false, if_false, not_false_eq_true]
      exact hq2
    · simp only [hw, ne_eq, false_and, if_false, not_false_eq_true, true_and, if_true]
      exact Nat.le_succ_of_le hq2
  · rename_i who
    split at h
    · exact absurd h (by simp)
    · rename_i hguard
      have := Except.ok.inj h
      subst this
      rw [set_role_quorum, set_role_boardCount]
      refine ⟨hq1, ?_⟩
      by_cases hw : role_of s who = UserRole.boardMember
      · have hnl : ¬ s.boardCount - 1 < s.quorum := fun hl => hguard ⟨hw, hl⟩
        simp only [hw, ne_eq, true_and, if_true]
        simpa using Nat.le_of_not_lt hnl
      · simp only [hw, ne_eq, false_and, if_false, not_false_eq_true, true_and]
        exact hq2
  · rename_i who
    split at h
    · exact absurd h (by simp)
    · split at h
      · exact absurd h (by simp)
      · rename_i hguard
        have := Except.ok.inj h
        subst this
        rw [set_role_quorum, set_role_boardCount]
        refine ⟨hq1, ?_⟩
        by_cases hw : role_of s who = UserRole.boardMember
        · have hnl : ¬ s.boardCount - 1 < s.quorum := fun hl => hguard ⟨hw, hl⟩
          simp only [hw, ne_eq, true_and, if_true]
          simpa using Nat.le_of_not_lt hnl
        · simp only [hw, ne_eq, false_and, if_false, not_false_eq_true, true_and]
          exact hq2
  · rename_i n
    split at h
    · exact absurd h (by simp)
    · rename_i hguard
      rw [not_or, not_lt] at hguard
      have := Except.ok.inj h
      subst this
      exact ⟨Nat.one_le_iff_ne_zero.mpr hguard.1, hguard.2⟩
  · have := Except.ok.inj h
    subst this
    exact ⟨hq1, hq2⟩

end Multisig

namespace Multisig

theorem updateRole_find_self (l : List (Identity × UserRole)) (who : Identity) (r : UserRole) :
    (updateRole l who r).find? (fun p => p.1 == who) = some (who, r) := by
  induction l with
  | nil => simp [updateRole, List.find?]
  | cons p rest ih =>
    by_cases hp : p.1 = who
    · simp [updateRole, hp, List.find?]
    · simp only [updateRole, hp, if_false, List.find?]
      have : (p.1 == who) = false := by simpa using hp
      rw [this]
      exact ih

theorem role_of_set_role_self (s : MsState) (who : Identity) (r : UserRole) :
    role_of (set_role s who r) who = r := by
  unfold role_of
  rw [set_role_roles, updateRole_find_self]

theorem get_action_id (s : MsState) (actionId : Nat) (e : ActionEntry)
    (h : get_action s actionId = some e) : e.id = actionId := by
  unfold get_action at h
  have := List.find?_some h
  simpa using this

theorem find?_filter_ne (l : List ActionEntry) (rid pid : Nat) (hne : pid ≠ rid) :
    (l.filter (fun e => decide (e.id ≠ rid))).find? (fun e => e.id == pid)
      = l.find? (fun e => e.id == pid) := by
  induction l with
  | nil => rfl
  | cons e rest ih =>
    by_cases hid : e.id = rid
    · have hpid : ¬ ((fun e2 : ActionEntry => e2.id == pid) e = true) := by
        simp only [beq_iff_eq, hid]
        exact fun hh => hne hh.symm
      rw [List.filter_cons, if_neg (by simp [hid]),
        @List.find?_cons_of_neg _ (fun e2 => e2.id == pid) e rest hpid]
      exact ih
    · rw [List.filter_cons, if_pos (by simp [hid])]
      by_cases hp : ((fun e2 : ActionEntry => e2.id == pid) e = true)
      · rw [@List.find?_cons_of_pos _ (fun e2 => e2.id == pid) e _ hp,
          @List.find?_cons_of_pos _ (fun e2 => e2.id == pid) e _ hp]
      · rw [@List.find?_cons_of_neg _ (fun e2 => e2.id == pid) e _ hp,
          @List.find?_cons_of_neg _ (fun e2 => e2.id == pid) e _ hp]
        exact ih

theorem get_action_remove_action (s : MsState) (rid pid : Nat) (hne : pid ≠ rid) :
    get_action (remove_action s rid) pid = get_action s pid := by
  unfold get_action remove_action
  exact find?_filter_ne s.actions rid pid hne

theorem mem_update_action (actions : List ActionEntry) (actionId : Nat)
    (f : ActionEntry → ActionEntry) (hf : ∀ e, (f e).id = e.id) (e2 : ActionEntry)
    (h : e2 ∈ update_action actions actionId f) :
    ∃ e ∈ actions, e2.id = e.id := by
  unfold update_action at h
  obtain ⟨e, he, heq⟩ := List.mem_map.mp h
  refine ⟨e, he, ?_⟩
  subst heq
  by_cases hid : e.id = actionId
  · simp [hid, hf]
  · simp [hid]

theorem find?_update_action (l : List ActionEntry) (actionId : Nat)
    (f : ActionEntry → ActionEntry) (hf : ∀ e, (f e).id = e.id) :
    (update_action l actionId f).find? (fun e => e.id == actionId)
      = (l.find? (fun e => e.id == actionId)).map (fun e => if e.id = actionId then f e else e) := by
  induction l with
  | nil => rfl
  | cons e rest ih =>
    show ((if e.id = actionId then f e else e) :: update_action rest actionId f).find?
        (fun e => e.id == actionId) = _
    by_cases hid : e.id = actionId
    · have h1 : ((fun e2 : ActionEntry => e2.id == actionId) (f e) = true) := by simp [hf, hid]
      have h2 : ((fun e2 : ActionEntry => e2.id == actionId) e = true) := by simp [hid]
      rw [if_pos hid, @List.find?_cons_of_pos _ (fun e2 => e2.id == actionId) (f e) _ h1,
        @List.find?_cons_of_pos _ (fun e2 => e2.id == actionId) e _ h2]
      simp [hid]
    · have h2 : ¬ ((fun e2 : ActionEntry => e2.id == actionId) e = true) := by simpa using hid
      rw [if_neg hid, @List.find?_cons_of_neg _ (fun e2 => e2.id == actionId) e _ h2,
        @List.find?_cons_of_neg _ (fun e2 => e2.id == actionId) e _ h2]
      exact ih

theorem filter_idem (p : Identity → Bool) (l : List Identity) :
    (l.filter p).filter p = l.filter p := by
  induction l with
  | nil => rfl
  | cons x rest ih =>
    by_cases hx : p x = true
    · simp [List.filter_cons, hx, ih]
    · have hx2 : p x = false := eq_false_of_ne_true hx
      simp [List.filter_cons, hx2, ih]

theorem update_action_idem (l : List ActionEntry) (actionId : Nat)
    (f : ActionEntry → ActionEntry) (hf : ∀ e, (f e).id = e.id)
    (hff : ∀ e, f (f e) = f e) :
    update_action (update_action l actionId f) actionId f = update_action l actionId f := by
  unfold update_action
  rw [List.map_map]
  apply List.map_congr_left
  intro e _
  by_cases hid : e.id = actionId
  · simp [Function.comp, hid, hf, hff]
  · simp [Function.comp, hid]

end Multisig

namespace Multisig

theorem step_inv (s s2 : MsState) (hst : Step s s2)
    (hq1 : 1 ≤ s.quorum) (hq2 : s.quorum ≤ s.boardCount) :
    1 ≤ s2.quorum ∧ s2.quorum ≤ s2.boardCount := by
  cases hst with
  | ofPropose caller a actionId h =>
    obtain ⟨_, _, hs2⟩ := propose_ok _ _ _ _ _ h
    subst hs2
    exact ⟨hq1, hq2⟩
  | ofSign caller actionId h =>
    obtain ⟨_, e, _, hcase⟩ := sign_ok _ _ _ _ h
    rcases hcase with ⟨_, hs2⟩ | ⟨_, hs2⟩ <;> subst hs2 <;> exact ⟨hq1, hq2⟩
  | ofUnsign caller actionId h =>
    obtain ⟨_, e, _, hs2⟩ := unsign_ok _ _ _ _ h
    subst hs2
    exact ⟨hq1, hq2⟩
  | ofDiscard caller actionId h =>
    obtain ⟨e, _, _, _, hs2⟩ := discard_ok _ _ _ _ h
    subst hs2
    exact ⟨hq1, hq2⟩
  | ofPerform caller actionId h =>
    obtain ⟨_, e, s3, _, _, hpa, hs2⟩ := perform_ok _ _ _ _ h
    have hinv := perform_action_inv _ _ _ hq1 hq2 hpa
    subst hs2
    exact hinv

theorem step_lastActionId_mono (s s2 : MsState) (hst : Step s s2) :
    s.lastActionId ≤ s2.lastActionId := by
  cases hst with
  | ofPropose caller a actionId h =>
    obtain ⟨_, _, hs2⟩ := propose_ok _ _ _ _ _ h
    subst hs2
    exact Nat.le_succ _
  | ofSign caller actionId h =>
    obtain ⟨_, e, _, hcase⟩ := sign_ok _ _ _ _ h
    rcases hcase with ⟨_, hs2⟩ | ⟨_, hs2⟩ <;> subst hs2 <;> exact Nat.le_refl _
  | ofUnsign caller actionId h =>
    obtain ⟨_, e, _, hs2⟩ := unsign_ok _ _ _ _ h
    subst hs2
    exact Nat.le_refl _
  | ofDiscard caller actionId h =>
    obtain ⟨e, _, _, _, hs2⟩ := discard_ok _ _ _ _ h
    subst hs2
    exact Nat.le_refl _
  | ofPerform caller actionId h =>
    obtain ⟨_, e, s3, _, _, hpa, hs2⟩ := perform_ok _ _ _ _ h
    have hf := perform_action_fields _ _ _ hpa
    subst hs2
    rw [remove_action_lastActionId, hf.2]

theorem reachable_ids_bounded (s : MsState) (h : Reachable s) :
    ∀ e ∈ s.actions, 1 ≤ e.id ∧ e.id ≤ s.lastActionId := by
  induction h with
  | init q board proposers hi =>
    obtain ⟨_, _, ha, _⟩ := initState_ok _ _ _ _ hi
    intro e he
    rw [ha] at he
    cases he
  | step hr hst ih =>
    cases hst with
    | ofPropose caller a actionId hp =>
      obtain ⟨_, _, hs2⟩ := propose_ok _ _ _ _ _ hp
      subst hs2
      intro e he
      simp only [List.mem_append, List.mem_singleton] at he
      rcases he with he | he
      · obtain ⟨h1, h2⟩ := ih e he
        exact ⟨h1, Nat.le_succ_of_le h2⟩
      · subst he
        exact ⟨Nat.succ_le_succ (Nat.zero_le _), Nat.le_refl _⟩
    | ofSign caller actionId hsg =>
      obtain ⟨_, e0, _, hcase⟩ := sign_ok _ _ _ _ hsg
      rcases hcase with ⟨_, hs2⟩ | ⟨_, hs2⟩
      · subst hs2
        exact ih
      · subst hs2
        intro e he
        obtain ⟨e1, he1, hid⟩ := mem_update_action _ actionId
          (fun e2 => { e2 with signers := e2.signers ++ [caller] }) (fun _ => rfl) e he
        rw [hid]
        exact ih e1 he1
    | ofUnsign caller actionId hus =>
      obtain ⟨_, e0, _, hs2⟩ := unsign_ok _ _ _ _ hus
      subst hs2
      intro e he
      obtain ⟨e1, he1, hid⟩ := mem_update_action _ actionId
        (fun e2 => { e2 with signers := e2.signers.filter (fun x => decide (x ≠ caller)) })
        (fun _ => rfl) e he
      rw [hid]
      exact ih e1 he1
    | ofDiscard caller actionId hd =>
      obtain ⟨e0, _, _, _, hs2⟩ := discard_ok _ _ _ _ hd
      subst hs2
      intro e he
      simp only [remove_action] at he
      exact ih e (List.mem_of_mem_filter he)
    | ofPerform caller actionId hp =>
      obtain ⟨_, e0, s3, _, _, hpa, hs2⟩ := perform_ok _ _ _ _ hp
      have hf := perform_action_fields _ _ _ hpa
      subst hs2
      intro e he
      simp only [remove_action] at he
      have hmem : e ∈ s3.actions := List.mem_of_mem_filter he
      rw [hf.1] at hmem
      have hb := ih e hmem
      rw [remove_action_lastActionId, hf.2]
      exact hb

end Multisig

namespace Multisig

/-- C1: from the deployment state (board member 1, quorum 1, proposer 2),
proposer 2 proposing AddBoardMember 3 returns action id 1; after board
member 1 signs, quorum_reached is true; after board member 1 performs,
identity 3 holds the BoardMember role, the board member count is 2, and
action 1 is no longer retrievable from the action store. -/
theorem c1_add_board_member_scenario :
    initState 1 [1] [2] = Except.ok setupState
    ∧ propose setupState 2 (Action.addBoardMember 3) = Except.ok (c1AfterPropose, 1)
    ∧ sign c1AfterPropose 1 1 = Except.ok c1AfterSign
    ∧ quorum_reached c1AfterSign 1 = true
    ∧ perform c1AfterSign 1 1 = Except.ok c1AfterPerform
    ∧ role_of c1AfterPerform 3 = UserRole.boardMember
    ∧ board_member_count c1AfterPerform = 2
    ∧ get_action c1AfterPerform 1 = Option.none := by decide

/-- C8: from the deployment state, proposer 2 proposing RemoveUser 2,
board member 1 signing and performing it leaves identity 2 with role
None, a board member list that excludes 2, and an empty proposer
list. -/
theorem c8_remove_proposer_scenario :
    propose setupState 2 (Action.removeUser 2) = Except.ok (c8AfterPropose, 1)
    ∧ sign c8AfterPropose 1 1 = Except.ok c8AfterSign
    ∧ perform c8AfterSign 1 1 = Except.ok c8AfterPerform
    ∧ role_of c8AfterPerform 2 = UserRole.none
    ∧ get_all_board_members c8AfterPerform = [1]
    ∧ get_all_proposers c8AfterPerform = [] := by decide

/-- C2: every reachable state (any successful initialization followed by
any sequence of successful mutating operations) satisfies
1 <= quorum <= board_member_count. -/
theorem c2_quorum_invariant (s : MsState) (h : Reachable s) :
    1 ≤ s.quorum ∧ s.quorum ≤ board_member_count s := by
  induction h with
  | init q board proposers hi =>
    obtain ⟨h1, h2, _, _⟩ := initState_ok _ _ _ _ hi
    exact ⟨h1, h2⟩
  | step hr hst ih => exact step_inv _ _ hst ih.1 ih.2

theorem c2_quorum_invariant_witness :
    1 ≤ setupState.quorum ∧ setupState.quorum ≤ board_member_count setupState :=
  c2_quorum_invariant setupState (Reachable.init 1 [1] [2] (by decide))

/-- C9: role lookup always yields exactly one of None, Proposer or
BoardMember, and yields None for any identity with no binding in the
role registry. -/
theorem c9_role_of_total (s : MsState) (i : Identity) :
    (role_of s i = UserRole.none ∨ role_of s i = UserRole.proposer
      ∨ role_of s i = UserRole.boardMember)
    ∧ ((∀ p ∈ s.roles, p.1 ≠ i) → role_of s i = UserRole.none) := by
  constructor
  · cases h : role_of s i
    · exact Or.inl rfl
    · exact Or.inr (Or.inl rfl)
    · exact Or.inr (Or.inr rfl)
  · intro hnone
    unfold role_of
    cases hf : s.roles.find? (fun p => p.1 == i) with
    | none => rfl
    | some p =>
      have hmem := List.mem_of_find?_eq_some hf
      have hp := List.find?_some hf
      have hpi : p.1 = i := by simpa using hp
      exact absurd hpi (hnone p hmem)

theorem c9_role_of_total_witness : role_of setupState 7 = UserRole.none :=
  (c9_role_of_total setupState 7).2 (by decide)

/-- C3: a discard succeeds only when the action exists, the caller is a
board member or the original proposer, and quorum is not reached; and
no discard of a quorum-satisfied action can succeed. -/
theorem c3_discard_guard :
    (∀ (s : MsState) (caller : Identity) (actionId : Nat) (s2 : MsState),
        discard s caller actionId = Except.ok s2 →
        ∃ e, get_action s actionId = some e
          ∧ (role_of s caller = UserRole.boardMember ∨ caller = e.proposer)
          ∧ quorum_reached s actionId = false)
    ∧ (∀ (s : MsState) (caller : Identity) (actionId : Nat),
        quorum_reached s actionId = true →
        ∀ s2, discard s caller actionId ≠ Except.ok s2) := by
  constructor
  · intro s caller actionId s2 h
    obtain ⟨e, hget, hperm, hqf, _⟩ := discard_ok _ _ _ _ h
    exact ⟨e, hget, hperm, hqf⟩
  · intro s caller actionId hq s2 h
    obtain ⟨e, _, _, hqf, _⟩ := discard_ok _ _ _ _ h
    exact Bool.noConfusion (hq.symm.trans hqf)

theorem c3_discard_guard_witness :
    (∃ e, get_action c1AfterPropose 1 = some e
       ∧ (role_of c1AfterPropose 2 = UserRole.boardMember ∨ 2 = e.proposer)
       ∧ quorum_reached c1AfterPropose 1 = false)
    ∧ discard c1AfterSign 1 1 ≠ Except.ok c1AfterSign :=
  ⟨c3_discard_guard.1 c1AfterPropose 2 1 (remove_action c1AfterPropose 1) (by decide),
   c3_discard_guard.2 c1AfterSign 1 1 (by decide) c1AfterSign⟩

/-- C4: performing a fully signed ChangeQuorum action whose new size is 0
or exceeds the board member count fails with InvalidQuorum. -/
theorem c4_change_quorum_invalid (s : MsState) (caller : Identity) (actionId : Nat)
    (e : ActionEntry) (n : Nat)
    (hrole : role_of s caller = UserRole.boardMember)
    (hget : get_action s actionId = some e)
    (hact : e.action = Action.changeQuorum n)
    (hq : quorum_reached s actionId = true)
    (hbad : n = 0 ∨ board_member_count s < n) :
    perform s caller actionId = Except.error MsError.invalidQuorum := by
  have hbad2 : n = 0 ∨ s.boardCount < n := hbad
  have hres : perform_action s e.action = Except.error MsError.invalidQuorum := by
    rw [hact]
    simp only [perform_action]
    rw [if_pos hbad2]
  simp [perform, hrole, hget, hq, hres]

theorem c4_change_quorum_invalid_witness :
    perform c4State 1 1 = Except.error MsError.invalidQuorum :=
  c4_change_quorum_invalid c4State 1 1 ⟨1, Action.changeQuorum 3, 1, [1, 2]⟩ 3
    (by decide) (by decide) rfl (by decide) (by decide)

/-- C6: action ids are allocated by propose as the successor of the
monotone counter: each successful proposal returns an id that is at
least 1, updates the counter to it, and is strictly above every id in
the store of any reachable state it was issued from; stored ids are
bounded by the counter and the counter never decreases, so no id is
ever reused. -/
theorem c6_action_id_allocation :
    (∀ (s : MsState) (caller : Identity) (a : Action) (s2 : MsState) (actionId : Nat),
        propose s caller a = Except.ok (s2, actionId) →
        actionId = s.lastActionId + 1 ∧ s2.lastActionId = actionId ∧ 1 ≤ actionId)
    ∧ (∀ s : MsState, Reachable s → ∀ e ∈ s.actions, 1 ≤ e.id ∧ e.id ≤ s.lastActionId)
    ∧ (∀ (s : MsState) (caller : Identity) (a : Action) (s2 : MsState) (actionId : Nat),
        Reachable s → propose s caller a = Except.ok (s2, actionId) →
        ∀ e ∈ s.actions, e.id < actionId)
    ∧ (∀ s s2 : MsState, Step s s2 → s.lastActionId ≤ s2.lastActionId) := by
  refine ⟨?_, ?_, ?_, ?_⟩
  · intro s caller a s2 actionId h
    obtain ⟨_, hid, hs2⟩ := propose_ok _ _ _ _ _ h
    subst hs2
    refine ⟨hid, hid.symm, ?_⟩
    rw [hid]
    exact Nat.succ_le_succ (Nat.zero_le _)
  · exact reachable_ids_bounded
  · intro s caller a s2 actionId hr h e he
    obtain ⟨_, hid, _⟩ := propose_ok _ _ _ _ _ h
    have hb := reachable_ids_bounded s hr e he
    rw [hid]
    exact Nat.lt_succ_of_le hb.2
  · exact step_lastActionId_mono

end Multisig

namespace ForwarderQueue

theorem forwardLoop_all_immediate (l : List QueuedCall)
    (h : ∀ c ∈ l, c.callType = QueuedCallType.sync ∨ c.callType = QueuedCallType.transferExecute) :
    forwardLoop l = ([], l) := by
  induction l with
  | nil => rfl
  | cons c rest ih =>
    have hc := h c (List.mem_cons_self c rest)
    have hrest : ∀ x ∈ rest, x.callType = QueuedCallType.sync ∨ x.callType = QueuedCallType.transferExecute :=
      fun x hx => h x (List.mem_cons_of_mem c hx)
    unfold forwardLoop
    rcases hc with h1 | h1 <;> simp [h1, ih hrest]

/-- C10: add_queued_call appends exactly one record at the back of the
queue preserving the existing entries, and forward_queued_calls pops
from the front: when every queued call is Sync or TransferExecute, it
dispatches the whole queue in exactly insertion order and leaves the
queue empty. -/
theorem c10_queue_fifo :
    (∀ (s : FQState) (ct : QueuedCallType) (dest gasLimit : Nat) (endpointName : List Nat)
        (args : List (List Nat)) (payments : Payment),
        (add_queued_call s ct dest gasLimit endpointName args payments).queued_calls
          = s.queued_calls ++ [⟨ct, dest, gasLimit, endpointName, args, payments⟩])
    ∧ (∀ s : FQState,
        (∀ c ∈ s.queued_calls,
          c.callType = QueuedCallType.sync ∨ c.callType = QueuedCallType.transferExecute) →
        forward_queued_calls s = (⟨[]⟩, s.queued_calls)) := by
  constructor
  · intro s ct dest gasLimit endpointName args payments
    rfl
  · intro s h
    unfold forward_queued_calls
    rw [forwardLoop_all_immediate s.queued_calls h]

theorem c10_queue_fifo_witness :
    (add_queued_call ⟨[c10Call1]⟩ QueuedCallType.transferExecute 2 5 [9] [[4], [6]]
        (Payment.multiEsdt [(1, 0, 2)])).queued_calls = [c10Call1, c10Call2]
    ∧ forward_queued_calls ⟨[c10Call1, c10Call2]⟩ = (⟨[]⟩, [c10Call1, c10Call2]) :=
  ⟨c10_queue_fifo.1 ⟨[c10Call1]⟩ QueuedCallType.transferExecute 2 5 [9] [[4], [6]]
      (Payment.multiEsdt [(1, 0, 2)]),
   c10_queue_fifo.2 ⟨[c10Call1, c10Call2]⟩ (by decide)⟩

end ForwarderQueue

namespace Multisig

theorem c6_action_id_allocation_witness :
    (2 = c1AfterSign.lastActionId + 1 ∧ c6AfterSecondPropose.lastActionId = 2 ∧ 1 ≤ 2)
    ∧ (1 ≤ (⟨1, Action.addBoardMember 3, 2, [1]⟩ : ActionEntry).id
        ∧ (⟨1, Action.addBoardMember 3, 2, [1]⟩ : ActionEntry).id ≤ c1AfterSign.lastActionId)
    ∧ (⟨1, Action.addBoardMember 3, 2, [1]⟩ : ActionEntry).id < 2
    ∧ setupState.lastActionId ≤ c1AfterPropose.lastActionId := by
  have h1 : Reachable setupState := Reachable.init 1 [1] [2] (by decide)
  have hst1 : Step setupState c1AfterPropose :=
    Step.ofPropose 2 (Action.addBoardMember 3) 1 (by decide)
  have h2 : Reachable c1AfterPropose := Reachable.step h1 hst1
  have h3 : Reachable c1AfterSign := Reachable.step h2 (Step.ofSign 1 1 (by decide))
  exact ⟨c6_action_id_allocation.1 c1AfterSign 2 (Action.addProposer 4) c6AfterSecondPropose 2
      (by decide),
    c6_action_id_allocation.2.1 c1AfterSign h3 ⟨1, Action.addBoardMember 3, 2, [1]⟩ (by decide),
    c6_action_id_allocation.2.2.1 c1AfterSign 2 (Action.addProposer 4) c6AfterSecondPropose 2 h3
      (by decide) ⟨1, Action.addBoardMember 3, 2, [1]⟩ (by decide),
    c6_action_id_allocation.2.2.2 setupState c1AfterPropose hst1⟩

/-- C7: signing is idempotent: after a successful sign by a caller, an
immediate repeated sign by the same caller succeeds and changes
nothing; likewise a repeated unsign after a successful unsign succeeds
and changes nothing. -/
theorem c7_sign_unsign_idempotent :
    (∀ (s : MsState) (caller : Identity) (actionId : Nat) (s1 : MsState),
        sign s caller actionId = Except.ok s1 → sign s1 caller actionId = Except.ok s1)
    ∧ (∀ (s : MsState) (caller : Identity) (actionId : Nat) (s1 : MsState),
        unsign s caller actionId = Except.ok s1 → unsign s1 caller actionId = Except.ok s1) := by
  constructor
  · intro s caller actionId s1 h
    obtain ⟨hrole, e, hget, hcase⟩ := sign_ok _ _ _ _ h
    have heid : e.id = actionId := get_action_id _ _ _ hget
    rcases hcase with ⟨hmem, hs1⟩ | ⟨hmem, hs1⟩
    · subst hs1
      simp [sign, hrole, hget, hmem]
    · subst hs1
      have hrole2 : role_of { s with actions := update_action s.actions actionId (fun e2 => { e2 with signers := e2.signers ++ [caller] }) } caller = UserRole.boardMember := hrole
      have hget2 : get_action { s with actions := update_action s.actions actionId (fun e2 => { e2 with signers := e2.signers ++ [caller] }) } actionId = some { e with signers := e.signers ++ [caller] } := by
        unfold get_action
        show (update_action s.actions actionId _).find? _ = _
        rw [find?_update_action s.actions actionId
          (fun e2 => { e2 with signers := e2.signers ++ [caller] }) (fun _ => rfl)]
        unfold get_action at hget
        rw [hget]
        simp [heid]
      simp [sign, hrole2, hget2]
  · intro s caller actionId s1 h
    obtain ⟨hrole, e, hget, hs1⟩ := unsign_ok _ _ _ _ h
    have heid : e.id = actionId := get_action_id _ _ _ hget
    subst hs1
    have hrole2 : role_of { s with actions := update_action s.actions actionId (fun e2 => { e2 with signers := e2.signers.filter (fun x => decide (x ≠ caller)) }) } caller = UserRole.boardMember := hrole
    have hget2 : get_action { s with actions := update_action s.actions actionId (fun e2 => { e2 with signers := e2.signers.filter (fun x => decide (x ≠ caller)) }) } actionId = some { e with signers := e.signers.filter (fun x => decide (x ≠ caller)) } := by
      unfold get_action
      show (update_action s.actions actionId _).find? _ = _
      rw [find?_update_action s.actions actionId
        (fun e2 => { e2 with signers := e2.signers.filter (fun x => decide (x ≠ caller)) })
        (fun _ => rfl)]
      unfold get_action at hget
      rw [hget]
      simp [heid]
    have hidem : update_action (update_action s.actions actionId (fun e2 => { e2 with signers := e2.signers.filter (fun x => decide (x ≠ caller)) })) actionId (fun e2 => { e2 with signers := e2.signers.filter (fun x => decide (x ≠ caller)) }) = update_action s.actions actionId (fun e2 => { e2 with signers := e2.signers.filter (fun x => decide (x ≠ caller)) }) :=
      update_action_idem _ _ _ (fun _ => rfl) (fun e2 => by simp [filter_idem])
    simp only [ne_eq, decide_not] at hrole2 hget2 hidem
    simp [unsign, hrole2, hget2, hidem]

theorem c7_sign_unsign_idempotent_witness :
    sign c1AfterSign 1 1 = Except.ok c1AfterSign
    ∧ unsign c1AfterPropose 1 1 = Except.ok c1AfterPropose :=
  ⟨c7_sign_unsign_idempotent.1 c1AfterPropose 1 1 c1AfterSign (by decide),
   c7_sign_unsign_idempotent.2 c1AfterSign 1 1 c1AfterPropose (by decide)⟩

/-- C5: signatures are counted against live board membership: when a
perform of a RemoveUser action demotes the sole signer of another
pending action, that other action keeps its stored signature record
unchanged (the stale signature is not purged) but its quorum_reached
becomes false. -/
theorem c5_stale_signature_excluded (s s2 : MsState) (caller x : Identity)
    (rid pid : Nat) (e1 e2 : ActionEntry)
    (hq1 : 1 ≤ s.quorum)
    (hget1 : get_action s rid = some e1)
    (hact : e1.action = Action.removeUser x)
    (hperf : perform s caller rid = Except.ok s2)
    (hget2 : get_action s pid = some e2)
    (hne : pid ≠ rid)
    (hsig : e2.signers = [x]) :
    get_action s2 pid = some e2 ∧ quorum_reached s2 pid = false := by
  obtain ⟨hrole, e, s3, hget, hqr, hpa, hs2⟩ := perform_ok _ _ _ _ hperf
  rw [hget1] at hget
  have he : e1 = e := Option.some.inj hget
  subst he
  rw [hact] at hpa
  simp only [perform_action] at hpa
  split at hpa
  · exact absurd hpa (by simp)
  · split at hpa
    · exact absurd hpa (by simp)
    · have hs3 : set_role s x UserRole.none = s3 := Except.ok.inj hpa
      subst hs3
      subst hs2
      constructor
      · rw [get_action_remove_action _ _ _ hne]
        exact hget2
      · have hrx : role_of (remove_action (set_role s x UserRole.none) rid) x = UserRole.none :=
          role_of_set_role_self s x UserRole.none
        have hga : get_action (remove_action (set_role s x UserRole.none) rid) pid = some e2 := by
          rw [get_action_remove_action _ _ _ hne]
          exact hget2
        simp [quorum_reached, signature_count, hga, hsig, hrx,
          remove_action_quorum, set_role_quorum]
        omega

theorem c5_stale_signature_excluded_witness :
    get_action c5After 1 = some ⟨1, Action.addProposer 5, 2, [2]⟩
    ∧ quorum_reached c5After 1 = false :=
  c5_stale_signature_excluded c5State c5After 1 2 2 1
    ⟨2, Action.removeUser 2, 2, [1]⟩ ⟨1, Action.addProposer 5, 2, [2]⟩
    (by decide) (by decide) rfl (by decide) (by decide) (by decide) rfl

end Multisig
